import Mathlib

/-!
Verification development for the OS-Symphony environment orchestrator.

Shallow embedding of the components under scrutiny:
* the evaluation engine of `desktop_env/waa/desktop_env.py` (`DesktopEnv.evaluate`),
* the port allocator of `desktop_env/waa/providers/provider.py`
  (`WindowsDockerProvider._get_available_port`),
* the snapshot revert and stop logic of the same provider
  (`revert_to_snapshot`, `stop_emulator`),
* the step loop of `agentcompass_server.py` (`_run_task_sync`),
* the macOS controller of `desktop_env/macos/controllers/env.py`
  (`MacOSEnv.step`, `MacOSEnv.execute_python_command`).

Python floats that carry metric scores are modelled as rationals; remote
side effects are modelled by explicit outcome parameters; a Python raise
that escapes a function is an `Except.error`.
-/

namespace OSSymphony

/-! ## Evaluation engine: list-form branch of `DesktopEnv.evaluate`

Source (`desktop_env/waa/desktop_env.py`, lines 445-469):

```
if type(self.metric) == list:
    results = []
    for idx, metric in enumerate(self.metric):
        try:
            config = self.evaluator["result"][idx]
            result_state = self.result_getter[idx](self, config)
        except FileNotFoundError:
            logger.error("File not found!")
            if self.metric_conj == "and":
                return 0

        expected = self.evaluator["expected"][idx]
        expected_state = self.expected_getter[idx](self, expected) if expected else None

        metric: int = metric(result_state, expected_state, **self.metric_options[idx]) \
            if expected_state is not None else metric(result_state, **self.metric_options[idx])

        if self.metric_conj == "and" and float(metric) == 0.0:
            return 0
        elif self.metric_conj == "or" and float(metric) == 1.0:
            return 1
        else:
            results.append(metric)
    return sum(results) / len(results) if self.metric_conj == "and" else max(results)
```

Note the control flow of the `except FileNotFoundError` handler: when
`metric_conj` is not `and`, execution falls through to the next statement
with the local variable `result_state` left at its previous value, or
unbound if no earlier iteration assigned it (an `UnboundLocalError` at
the metric call).  The loop threads that Python local as an `Option σ`.

Per entry, the expected-getter call of line 456-457 runs before
`result_state` is read at line 459; its possible raise is recorded in
`expectedRaises`.  The metric call together with its `expected_state`
and options arguments is absorbed into a function of the result state.
-/

/-- Conjunction policy of an evaluator (`metric_conj`). -/
inductive Conj
  | and
  | or
deriving DecidableEq, Repr

/-- Outcome of calling a result getter: a value, a `FileNotFoundError`,
or some other exception (which the list branch does not catch). -/
inductive GetterResult (σ : Type)
  | ok (s : σ)
  | fileNotFound
  | raises
deriving DecidableEq, Repr

/-- Outcome of the metric call of one list entry (score as a rational;
Python booleans coerce to 0 and 1 through `float(metric)`). -/
inductive MetricResult
  | value (q : ℚ)
  | raises
deriving DecidableEq, Repr

/-- One entry of a list-form evaluator: the result getter outcome, whether
the expected-getter call at lines 456-457 raises, and the metric applied
to the result state (expected state and options absorbed). -/
structure EvalEntry (σ : Type) where
  getter : GetterResult σ
  expectedRaises : Bool
  score : σ → MetricResult

/-- Ways `evaluate` can escape with an exception. -/
inductive EvalError
  | uncaught      -- an exception not handled by any handler propagates
  | nameError     -- `result_state` read while unbound (UnboundLocalError)
  | zeroDivision  -- `sum(results) / len(results)` on an empty list
  | emptyMax      -- `max(results)` on an empty list (ValueError)
deriving DecidableEq, Repr

/-- Line 469: the aggregate computed after the loop. -/
def evalFinish (conj : Conj) (results : List ℚ) : Except EvalError ℚ :=
  match conj with
  | Conj.and =>
    match results with
    | [] => Except.error EvalError.zeroDivision
    | _ => Except.ok (results.sum / (results.length : ℚ))
  | Conj.or =>
    match results with
    | [] => Except.error EvalError.emptyMax
    | h :: t => Except.ok (t.foldl max h)

/-- The loop of lines 447-468.  `prev` is the Python local `result_state`
(`none` while still unbound), `results` the accumulator list. -/
def evalLoop (conj : Conj) : List (EvalEntry σ) → Option σ → List ℚ → Except EvalError ℚ
  | [], _, results => evalFinish conj results
  | e :: rest, prev, results =>
    match e.getter with
    | GetterResult.raises => Except.error EvalError.uncaught
    | GetterResult.fileNotFound =>
      if conj = Conj.and then Except.ok 0
      else
        -- fall-through: the handler does not skip the entry
        if e.expectedRaises then Except.error EvalError.uncaught
        else
          match prev with
          | none => Except.error EvalError.nameError
          | some s =>
            match e.score s with
            | MetricResult.raises => Except.error EvalError.uncaught
            | MetricResult.value q =>
              if conj = Conj.and ∧ q = 0 then Except.ok 0
              else if conj = Conj.or ∧ q = 1 then Except.ok 1
              else evalLoop conj rest prev (results ++ [q])
    | GetterResult.ok s =>
      if e.expectedRaises then Except.error EvalError.uncaught
      else
        match e.score s with
        | MetricResult.raises => Except.error EvalError.uncaught
        | MetricResult.value q =>
          if conj = Conj.and ∧ q = 0 then Except.ok 0
          else if conj = Conj.or ∧ q = 1 then Except.ok 1
          else evalLoop conj rest (some s) (results ++ [q])

/-- The list-form branch of `DesktopEnv.evaluate`. -/
def evaluateList (conj : Conj) (entries : List (EvalEntry σ)) : Except EvalError ℚ :=
  evalLoop conj entries none []

/-- Entry `e` evaluates cleanly to score `q`: its getter succeeds, the
expected-getter call does not raise, and the metric returns `q`. -/
def EntryYields (e : EvalEntry σ) (q : ℚ) : Prop :=
  e.expectedRaises = false ∧ ∃ s, e.getter = GetterResult.ok s ∧ e.score s = MetricResult.value q

/-- Python `max` over a nonempty list (line 469). -/
def listMax (l : List ℚ) : Option ℚ :=
  match l with
  | [] => none
  | h :: t => some (t.foldl max h)

/-! ## Evaluation engine: scalar branch of `DesktopEnv.evaluate`

Source (`desktop_env/waa/desktop_env.py`, lines 470-490):

```
else:
    try:
        result_state = self.result_getter(self, self.evaluator["result"])
    except FileNotFoundError:
        logger.error("File not found!")
        return 0
    except Exception as e:
        logger.error(f"An unexpected error occurred: ...")
        return 0
    expected_state = self.expected_getter(self, self.evaluator["expected"]) \
        if "expected" in self.evaluator else None
    metric: float = self.metric(result_state, expected_state, **self.metric_options) \
        if expected_state is not None else self.metric(result_state, **self.metric_options)
if isinstance(metric, (float, int, bool)):
    return metric
else:
    return 0
```

Only the result-getter call sits inside the try block: the
expected-getter call and the metric call are outside it, so exceptions
they raise propagate to the caller of `evaluate`.
-/

/-- Outcome of the scalar metric call: a numeric or boolean value
(booleans coerced to 0 and 1), a non-numeric value (caught by the
`isinstance` check), or a raise. -/
inductive ScalarMetricResult
  | num (q : ℚ)
  | nonNumeric
  | raises
deriving DecidableEq, Repr

/-- A scalar (non-list) evaluator configuration at evaluation time. -/
structure ScalarEvalCfg (σ τ : Type) where
  result_getter : GetterResult σ
  expected_present : Bool
  expected_getter : GetterResult τ
  metricFn : σ → Option τ → ScalarMetricResult

/-- The scalar branch of `DesktopEnv.evaluate`. -/
def evaluateScalar (cfg : ScalarEvalCfg σ τ) : Except EvalError ℚ :=
  match cfg.result_getter with
  | GetterResult.fileNotFound => Except.ok 0     -- except FileNotFoundError: return 0
  | GetterResult.raises => Except.ok 0           -- except Exception: return 0
  | GetterResult.ok s =>
    let eres : Except EvalError (Option τ) :=
      if cfg.expected_present then
        match cfg.expected_getter with
        | GetterResult.ok t => Except.ok (some t)
        | GetterResult.fileNotFound => Except.error EvalError.uncaught  -- outside the try
        | GetterResult.raises => Except.error EvalError.uncaught
      else Except.ok none
    match eres with
    | Except.error e => Except.error e
    | Except.ok expected_state =>
      match cfg.metricFn s expected_state with
      | ScalarMetricResult.raises => Except.error EvalError.uncaught   -- outside the try
      | ScalarMetricResult.num q => Except.ok q
      | ScalarMetricResult.nonNumeric => Except.ok 0                  -- isinstance fallback

/-! ## Port allocator

Source (`desktop_env/waa/providers/provider.py`, lines 71-90):

```
def _get_available_port(self, start_port: int, exclude_ports: set = None) -> int:
    if exclude_ports is None:
        exclude_ports = set()
    used_ports = self._get_used_ports()
    port = start_port
    while port < 65535:
        if port not in used_ports and port not in exclude_ports:
            return port
        port += 1
    raise RuntimeError(f"No free ports available starting from ...")
```

The live set returned by `_get_used_ports` becomes the parameter
`used_ports`.  The loop is structural recursion on the remaining range
`65535 - port`; the `RuntimeError` raise is `none`.
-/

/-- The scan loop; `rem` is the remaining range `65535 - port`. -/
def scanRem (used_ports exclude_ports : Finset ℕ) : ℕ → ℕ → Option ℕ
  | 0, _ => none
  | rem + 1, port =>
    if port ∉ used_ports ∧ port ∉ exclude_ports then some port
    else scanRem used_ports exclude_ports rem (port + 1)

/-- `WindowsDockerProvider._get_available_port`, with the used-port set
made explicit.  `none` models the `RuntimeError` raise. -/
def _get_available_port (used_ports exclude_ports : Finset ℕ) (start_port : ℕ) : Option ℕ :=
  scanRem used_ports exclude_ports (65535 - start_port) start_port

/-! ## Snapshot revert and stop

Source (`desktop_env/waa/providers/provider.py`).

`revert_to_snapshot` (lines 214-255): stop the emulator, delete the
working directory tree, then
* if the backup path exists and is a directory, `cp -r --sparse=always`
  it onto the working path (a `CalledProcessError` of the copy is
  re-raised);
* if the backup path exists but is not a directory, copy nothing
  (the working path stays absent);
* if the backup path does not exist, `os.makedirs` an empty working
  directory, log a warning, and continue.
Finally `start_emulator` runs again (it does not touch the storage
tree, so it is outside the storage model).

`stop_emulator` (lines 191-212): when a container handle is present,
stop and remove it inside try/except (all exceptions logged), and in
the `finally` block clear `container`, `server_port`, `rdp_port` and
`chromium_port`.  The field `brower_port` is not cleared, and nothing
at all happens when no container handle is present.
-/

/-- A file tree: the content at the backup or working path. -/
inductive FSNode
  | file (data : String)
  | dir (children : List (String × FSNode))

/-- Whether a node is a directory (`os.path.isdir`). -/
def FSNode.isDir : FSNode → Bool
  | FSNode.file _ => false
  | FSNode.dir _ => true

/-- Errors `revert_to_snapshot` can raise. -/
inductive RevertError
  | copyFailed   -- subprocess.CalledProcessError from cp, re-raised
deriving DecidableEq, Repr

/-- The storage effect of `revert_to_snapshot`: from the backup tree and
the current working tree to the new working tree.  `copyOk` is the
outcome of the `cp` subprocess. -/
def revert_to_snapshot (copyOk : Bool) (backup working : Option FSNode) :
    Except RevertError (Option FSNode) :=
  -- shutil.rmtree(vm_storage_path, ignore_errors=True): working tree deleted
  match backup with
  | none => Except.ok (some (FSNode.dir []))  -- os.makedirs: empty working dir
  | some b =>
    if b.isDir then
      if copyOk then Except.ok (some b)       -- cp -r --sparse=always
      else Except.error RevertError.copyFailed
    else Except.ok none                        -- no copy branch applies

/-- The provider fields touched by `stop_emulator`. -/
structure ProviderState where
  container : Bool
  server_port : Option ℕ
  rdp_port : Option ℕ
  chromium_port : Option ℕ
  brower_port : Option ℕ
deriving DecidableEq, Repr

/-- Outcome of `container.stop` / `container.remove`. -/
def stopRemoveOps (raisesFlag : Bool) : Except Unit Unit :=
  if raisesFlag then Except.error () else Except.ok ()

/-- `WindowsDockerProvider.stop_emulator`.  The try/except swallows any
stop or remove exception; the finally block clears the handle and three
of the four port fields. -/
def stop_emulator (stopRaises : Bool) (s : ProviderState) : ProviderState :=
  if s.container then
    match stopRemoveOps stopRaises with
    | Except.ok _ =>
      { s with container := false, server_port := none, rdp_port := none, chromium_port := none }
    | Except.error _ =>  -- except: logged; finally still runs
      { s with container := false, server_port := none, rdp_port := none, chromium_port := none }
  else s

/-! ## Step loop of `_run_task_sync`

Source (`agentcompass_server.py`, lines 357-406):

```
obs = worker_env._get_obs()
done = False
step_idx = 0
trajectory = []
while not done and step_idx < ServiceConfig.MAX_STEPS:
    response, actions = agent.predict(instruction, obs)
    for action in actions:
        ... save screenshot ...
        obs, _, done, _ = worker_env.step(action, ...)
        trajectory.append({"step": step_idx + 1, "action": action, ..., "done": done})
        ... append traj.jsonl line ...
        if done:
            break
    step_idx += 1
score = float(worker_env.evaluate())
```

The agent is abstracted as the list of actions it emits at each outer
iteration, and the environment as the `done` flag its `step` returns for
an action.  Each `worker_env.step` call is one interaction with the
remote execution channel, counted in `envStepCalls`.  The outer loop is
structural recursion on `fuel`, which encodes `MAX_STEPS - step_idx`
(the `while` guard `step_idx < MAX_STEPS` holds exactly when `fuel`
is positive).
-/

/-- One trajectory record appended per executed action. -/
structure StepRec (α : Type) where
  stepNum : ℕ
  action : α
  doneFlag : Bool

/-- Result of the inner `for action in actions` loop. -/
structure ActRes (α : Type) where
  traj : List (StepRec α)
  calls : ℕ
  doneFlag : Bool

/-- Result of the whole loop. -/
structure LoopState (α : Type) where
  trajectory : List (StepRec α)
  envStepCalls : ℕ
  doneFlag : Bool
  stepIdx : ℕ

/-- The inner loop: execute each action, record it, break on done. -/
def runActions (stepDone : α → Bool) : List α → ℕ → List (StepRec α) → ℕ → ActRes α
  | [], _, traj, calls => ⟨traj, calls, false⟩
  | a :: rest, stepIdx, traj, calls =>
    let d := stepDone a
    let traj2 := traj ++ [⟨stepIdx + 1, a, d⟩]
    if d then ⟨traj2, calls + 1, true⟩
    else runActions stepDone rest stepIdx traj2 (calls + 1)

/-- The outer `while not done and step_idx < MAX_STEPS` loop. -/
def runOuter (agent : ℕ → List α) (stepDone : α → Bool) :
    ℕ → ℕ → Bool → List (StepRec α) → ℕ → LoopState α
  | 0, stepIdx, d, traj, calls => ⟨traj, calls, d, stepIdx⟩
  | fuel + 1, stepIdx, d, traj, calls =>
    if d then ⟨traj, calls, d, stepIdx⟩
    else
      let r := runActions stepDone (agent stepIdx) stepIdx traj calls
      runOuter agent stepDone fuel (stepIdx + 1) r.doneFlag r.traj r.calls

/-- The step loop of `_run_task_sync` for a given step budget. -/
def runTaskLoop (agent : ℕ → List α) (stepDone : α → Bool) (maxSteps : ℕ) : LoopState α :=
  runOuter agent stepDone maxSteps 0 false [] 0

/-! ## macOS controller: `MacOSEnv.step`

Source (`desktop_env/macos/controllers/env.py`, lines 274-308):

```
def step(self, action, pause=2.0):
    if self.task is None:
        logger.info("Task is None, load a task before taking actions.")
        return None, None, None, None
    self.task.step_no += 1
    self.task.action_history.append(action)
    reward = 0
    done = False
    info = {}
    if action in ["WAIT", "FAIL", "DONE"] or ...:
        if action == "WAIT": time.sleep(pause)
        elif action == "FAIL": done = True; info = {"fail": True}
        elif action == "DONE": done = True; info = {"done": True}
    if self.action_space == "computer_13":
        self.execute_action(action)          # a pass statement
    elif self.action_space == "pyautogui":
        if action in ["WAIT", "FAIL", "DONE"]: pass
        else: self.execute_python_command(action)
    time.sleep(pause)
    observation = self._get_obs()
    return observation, reward, done, info
```

The default action space `pyautogui` is modelled.  `remoteCalls` counts
interactions with the remote channel: one for `execute_python_command`
on an ordinary action and one for the screenshot inside `_get_obs`.
-/

/-- An action given to the macOS environment. -/
inductive MacAction
  | wait
  | fail
  | doneAct
  | pyCode (code : String)
deriving DecidableEq, Repr

/-- The task state mutated by `step` (`TaskController.step_no`,
`TaskController.action_history`). -/
structure MacTask where
  step_no : ℕ
  action_history : List MacAction

/-- The environment fields `step` reads and writes. -/
structure MacEnvState where
  task : Option MacTask

/-- The `info` dict returned by `step`. -/
inductive MacInfo
  | empty
  | failFlag
  | doneFlag
deriving DecidableEq, Repr

/-- The four-tuple `step` returns; every component is `None` when no
task is loaded. -/
structure MacStepResult where
  obs : Option Unit
  reward : Option ℚ
  doneFlag : Option Bool
  info : Option MacInfo

/-- `MacOSEnv.step` in the `pyautogui` action space: returns the result
tuple, the new state, and the number of remote-channel calls made. -/
def macStep (st : MacEnvState) (action : MacAction) : MacStepResult × MacEnvState × ℕ :=
  match st.task with
  | none => (⟨none, none, none, none⟩, st, 0)
  | some t =>
    let t2 : MacTask := ⟨t.step_no + 1, t.action_history ++ [action]⟩
    let d : Bool := action = MacAction.fail ∨ action = MacAction.doneAct
    let info : MacInfo :=
      match action with
      | MacAction.fail => MacInfo.failFlag
      | MacAction.doneAct => MacInfo.doneFlag
      | _ => MacInfo.empty
    let execCalls : ℕ :=
      match action with
      | MacAction.pyCode _ => 1  -- execute_python_command
      | _ => 0                   -- special actions skip the remote execution
    (⟨some (), some 0, some d, some info⟩, ⟨some t2⟩, execCalls + 1)

/-! ## macOS controller: `MacOSEnv.execute_python_command`

Source (`desktop_env/macos/controllers/env.py`, lines 342-389):

```
remote_tmp_path = f"/tmp/task_script_....py"
...
try:
    self.connect_sftp()
    with self.sftp_client.open(remote_tmp_path, "w") as remote_script:
        remote_script.write(python_code)
    full_cmd = f"sudo python3 {remote_tmp_path}"
    stdout, stderr = self.run_command(full_cmd)
    ...
    self.run_command(f"rm -f {remote_tmp_path}")
    return {"status": "success", ...}
except Exception as e:
    return {"status": "error", ...}
```

The three remote operations (upload, script execution, `rm -f`) each
either complete or raise.  A script that merely exits nonzero does not
make `run_command` raise, so it is the `ok` outcome; `raises` is a
transport-level exception.  The upload raise is taken to occur before
the remote file is created (a raise of `sftp_client.open`); no claim
depends on that path.  There is no `finally` block: the `rm -f` runs
only on the straight-line path.
-/

/-- Outcome of one remote operation. -/
inductive RemoteOp
  | ok
  | raises
deriving DecidableEq, Repr

/-- Outcomes of the three remote operations of one call. -/
structure ExecScriptEnv where
  upload : RemoteOp
  runScript : RemoteOp
  removeCmd : RemoteOp

/-- The returned status dict, reduced to its `status` field. -/
inductive ExecStatus
  | success
  | error
deriving DecidableEq, Repr

/-- Result of `execute_python_command`: the status returned and whether
the temporary script file is still present on the remote host. -/
structure ExecOutcome where
  status : ExecStatus
  tempFileOnRemote : Bool
deriving DecidableEq, Repr

/-- `MacOSEnv.execute_python_command`. -/
def execute_python_command (env : ExecScriptEnv) : ExecOutcome :=
  match env.upload with
  | RemoteOp.raises => ⟨ExecStatus.error, false⟩   -- raise before the file is created
  | RemoteOp.ok =>
    -- the script file now exists at remote_tmp_path
    match env.runScript with
    | RemoteOp.raises => ⟨ExecStatus.error, true⟩  -- exception skips the rm -f
    | RemoteOp.ok =>
      match env.removeCmd with
      | RemoteOp.raises => ⟨ExecStatus.error, true⟩
      | RemoteOp.ok => ⟨ExecStatus.success, false⟩

/-! ## Helper lemmas about `List.foldl max` -/

lemma le_foldl_max (l : List ℚ) : ∀ b : ℚ, b ≤ l.foldl max b := by
  induction l with
  | nil => intro b; simp
  | cons x t ih =>
    intro b
    calc b ≤ max b x := le_max_left b x
    _ ≤ t.foldl max (max b x) := ih (max b x)

lemma mem_le_foldl_max {a : ℚ} {l : List ℚ} (ha : a ∈ l) : ∀ b : ℚ, a ≤ l.foldl max b := by
  induction l with
  | nil => cases ha
  | cons x t ih =>
    intro b
    rcases List.mem_cons.mp ha with h | h
    · subst h
      calc a ≤ max b a := le_max_right b a
      _ ≤ t.foldl max (max b a) := le_foldl_max t (max b a)
    · exact ih h (max b x)

lemma foldl_max_le {l : List ℚ} {c : ℚ} (hl : ∀ x ∈ l, x ≤ c) :
    ∀ b : ℚ, b ≤ c → l.foldl max b ≤ c := by
  induction l with
  | nil => intro b hb; simpa using hb
  | cons x t ih =>
    intro b hb
    have hx : x ≤ c := hl x (List.mem_cons_self x t)
    exact ih (fun y hy => hl y (List.mem_cons_of_mem x hy)) (max b x) (max_le hb hx)

lemma foldl_max_mem (l : List ℚ) : ∀ b : ℚ, l.foldl max b = b ∨ l.foldl max b ∈ l := by
  induction l with
  | nil => intro b; left; rfl
  | cons x t ih =>
    intro b
    rw [List.foldl_cons]
    rcases ih (max b x) with h | h
    · rcases max_choice b x with hm | hm
      · left; rw [h, hm]
      · right; rw [h, hm]; exact List.mem_cons_self x t
    · right; exact List.mem_cons_of_mem x h

/-! ## Characterization of the evaluation loop on clean entries -/

lemma evalLoop_and_spec {σ : Type} {entries : List (EvalEntry σ)} {scores : List ℚ}
    (h : List.Forall₂ EntryYields entries scores) :
    ∀ (prev : Option σ) (acc : List ℚ),
      evalLoop Conj.and entries prev acc =
        if ∃ q ∈ scores, q = 0 then Except.ok 0
        else evalFinish Conj.and (acc ++ scores) := by
  induction h with
  | nil => intro prev acc; simp [evalLoop]
  | @cons e q l₁ l₂ hy _ ih =>
    intro prev acc
    obtain ⟨hexp, s, hget, hscore⟩ := hy
    by_cases hq : q = 0
    · subst hq
      simp [evalLoop, hget, hexp, hscore]
    · have : evalLoop Conj.and (e :: l₁) prev acc =
          evalLoop Conj.and l₁ (some s) (acc ++ [q]) := by
        simp [evalLoop, hget, hexp, hscore, hq]
      rw [this, ih (some s) (acc ++ [q])]
      have hmem : (∃ x ∈ q :: l₂, x = 0) ↔ (∃ x ∈ l₂, x = 0) := by
        constructor
        · rintro ⟨x, hx, rfl⟩
          rcases List.mem_cons.mp hx with h | h
          · exact absurd h.symm hq
          · exact ⟨0, h, rfl⟩
        · rintro ⟨x, hx, rfl⟩
          exact ⟨0, List.mem_cons_of_mem q hx, rfl⟩
      rw [List.append_assoc]
      simp only [List.singleton_append, hmem]

lemma evalLoop_or_spec {σ : Type} {entries : List (EvalEntry σ)} {scores : List ℚ}
    (h : List.Forall₂ EntryYields entries scores) :
    ∀ (prev : Option σ) (acc : List ℚ),
      evalLoop Conj.or entries prev acc =
        if ∃ q ∈ scores, q = 1 then Except.ok 1
        else evalFinish Conj.or (acc ++ scores) := by
  induction h with
  | nil => intro prev acc; simp [evalLoop]
  | @cons e q l₁ l₂ hy _ ih =>
    intro prev acc
    obtain ⟨hexp, s, hget, hscore⟩ := hy
    by_cases hq : q = 1
    · subst hq
      simp [evalLoop, hget, hexp, hscore]
    · have : evalLoop Conj.or (e :: l₁) prev acc =
          evalLoop Conj.or l₁ (some s) (acc ++ [q]) := by
        simp [evalLoop, hget, hexp, hscore, hq]
      rw [this, ih (some s) (acc ++ [q])]
      have hmem : (∃ x ∈ q :: l₂, x = 1) ↔ (∃ x ∈ l₂, x = 1) := by
        constructor
        · rintro ⟨x, hx, rfl⟩
          rcases List.mem_cons.mp hx with h | h
          · exact absurd h.symm hq
          · exact ⟨1, h, rfl⟩
        · rintro ⟨x, hx, rfl⟩
          exact ⟨1, List.mem_cons_of_mem q hx, rfl⟩
      rw [List.append_assoc]
      simp only [List.singleton_append, hmem]

/-- Helper for C2: under AND, a clean prefix with nonzero scores followed
by a file-not-found entry makes the loop return 0. -/
lemma evalLoop_and_fnf {σ : Type} {e : EvalEntry σ} (he : e.getter = GetterResult.fileNotFound)
    (post : List (EvalEntry σ)) {pre : List (EvalEntry σ)} {scores : List ℚ}
    (hys : List.Forall₂ EntryYields pre scores) :
    (∀ q ∈ scores, q ≠ 0) → ∀ (prev : Option σ) (acc : List ℚ),
      evalLoop Conj.and (pre ++ e :: post) prev acc = Except.ok 0 := by
  induction hys with
  | nil => intro _ prev acc; simp [evalLoop, he]
  | @cons e' q' l₁ l₂ hy _ ih =>
    intro hnz prev acc
    obtain ⟨hexp, s, hget, hscore⟩ := hy
    have hq : q' ≠ 0 := hnz q' (List.mem_cons_self q' l₂)
    have step : evalLoop Conj.and ((e' :: l₁) ++ e :: post) prev acc =
        evalLoop Conj.and (l₁ ++ e :: post) (some s) (acc ++ [q']) := by
      simp [evalLoop, hget, hexp, hscore, hq]
    rw [step]
    exact ih (fun q hq2 => hnz q (List.mem_cons_of_mem q' hq2)) (some s) (acc ++ [q'])

/-- C1: for a list-form evaluator whose entries all evaluate cleanly to
scores in [0,1]: under AND the aggregate is 0 when some score is exactly
0 and the arithmetic mean of all scores otherwise; under OR the
aggregate is the maximum of all scores (which is 1 exactly when some
score is 1, matching the short-circuit). -/
theorem C1_evaluate_list_aggregate {σ : Type} (entries : List (EvalEntry σ)) (scores : List ℚ)
    (hys : List.Forall₂ EntryYields entries scores) (hne : scores ≠ [])
    (hb : ∀ q ∈ scores, q ≤ 1) :
    evaluateList Conj.and entries =
        (if ∃ q ∈ scores, q = 0 then Except.ok 0
         else Except.ok (scores.sum / (scores.length : ℚ))) ∧
      ∃ m, listMax scores = some m ∧ m ∈ scores ∧ (∀ q ∈ scores, q ≤ m) ∧
        evaluateList Conj.or entries = Except.ok m := by
  obtain ⟨h0, t, rfl⟩ : ∃ h0 t, scores = h0 :: t := by
    cases scores with
    | nil => exact absurd rfl hne
    | cons a b => exact ⟨a, b, rfl⟩
  constructor
  · rw [evaluateList, evalLoop_and_spec hys none []]
    by_cases hz : ∃ q ∈ h0 :: t, q = 0
    · rw [if_pos hz, if_pos hz]
    · rw [if_neg hz, if_neg hz]
      simp [evalFinish]
  · refine ⟨t.foldl max h0, rfl, ?_, ?_, ?_⟩
    · rcases foldl_max_mem t h0 with h | h
      · rw [h]; exact List.mem_cons_self h0 t
      · exact List.mem_cons_of_mem h0 h
    · intro q hq
      rcases List.mem_cons.mp hq with h | h
      · rw [h]; exact le_foldl_max t h0
      · exact mem_le_foldl_max h h0
    · rw [evaluateList, evalLoop_or_spec hys none []]
      by_cases h1 : ∃ q ∈ h0 :: t, q = 1
      · rw [if_pos h1]
        have hmem1 : (1 : ℚ) ∈ h0 :: t := by
          obtain ⟨x, hx, hx1⟩ := h1
          rwa [hx1] at hx
        have hle : t.foldl max h0 ≤ 1 :=
          foldl_max_le (fun y hy => hb y (List.mem_cons_of_mem h0 hy)) h0
            (hb h0 (List.mem_cons_self h0 t))
        have hge : (1 : ℚ) ≤ t.foldl max h0 := by
          rcases List.mem_cons.mp hmem1 with h | h
          · rw [h]; exact le_foldl_max t h0
          · exact mem_le_foldl_max h h0
        rw [le_antisymm hle hge]
      · rw [if_neg h1]
        simp [evalFinish]

/-- Witness for C1 at a two-entry evaluator with scores 0 and 1. -/
theorem C1_evaluate_list_aggregate_witness :
    evaluateList Conj.and
        [⟨GetterResult.ok (), false, fun _ : Unit => MetricResult.value 0⟩,
         ⟨GetterResult.ok (), false, fun _ : Unit => MetricResult.value 1⟩] =
        (if ∃ q ∈ [(0:ℚ), 1], q = 0 then Except.ok 0
         else Except.ok (([(0:ℚ), 1].sum / (([(0:ℚ), 1].length : ℕ) : ℚ)))) ∧
      ∃ m, listMax [(0:ℚ), 1] = some m ∧ m ∈ [(0:ℚ), 1] ∧
        (∀ q ∈ [(0:ℚ), 1], q ≤ m) ∧
        evaluateList Conj.or
          [⟨GetterResult.ok (), false, fun _ : Unit => MetricResult.value 0⟩,
           ⟨GetterResult.ok (), false, fun _ : Unit => MetricResult.value 1⟩] = Except.ok m :=
  C1_evaluate_list_aggregate _ _
    (List.Forall₂.cons ⟨rfl, (), rfl, rfl⟩
      (List.Forall₂.cons ⟨rfl, (), rfl, rfl⟩ List.Forall₂.nil))
    (by simp) (by simp)

/-- C2 counterexample: with conj OR, a file-not-found result getter on
the first entry is NOT skipped: the handler falls through and the metric
call reads the still-unbound local `result_state`, so `evaluate` escapes
with an UnboundLocalError instead of continuing over the remaining
entries. -/
theorem C2_counterexample_or_not_skipped :
    evaluateList Conj.or
        [⟨GetterResult.fileNotFound, false, fun _ : Unit => MetricResult.value 1⟩,
         ⟨GetterResult.ok (), false, fun _ : Unit => MetricResult.value 1⟩] =
      Except.error EvalError.nameError := rfl

/-- C2 amended: a file-not-found result getter yields aggregate 0 under
AND (whenever the preceding entries evaluate cleanly to nonzero scores);
under OR the entry is not skipped: with no earlier successful entry the
loop escapes with an UnboundLocalError, and with an earlier result state
`s` the failing entry evaluates its metric against that stale state and
appends that score. -/
theorem C2_amended_file_not_found {σ : Type} :
    (∀ (pre : List (EvalEntry σ)) (scores : List ℚ) (e : EvalEntry σ)
        (post : List (EvalEntry σ)),
        List.Forall₂ EntryYields pre scores → (∀ q ∈ scores, q ≠ 0) →
        e.getter = GetterResult.fileNotFound →
        evaluateList Conj.and (pre ++ e :: post) = Except.ok 0) ∧
    (∀ (e : EvalEntry σ) (post : List (EvalEntry σ)),
        e.getter = GetterResult.fileNotFound → e.expectedRaises = false →
        evaluateList Conj.or (e :: post) = Except.error EvalError.nameError) ∧
    (∀ (e : EvalEntry σ) (rest : List (EvalEntry σ)) (s : σ) (acc : List ℚ) (q : ℚ),
        e.getter = GetterResult.fileNotFound → e.expectedRaises = false →
        e.score s = MetricResult.value q → q ≠ 1 →
        evalLoop Conj.or (e :: rest) (some s) acc =
          evalLoop Conj.or rest (some s) (acc ++ [q])) := by
  refine ⟨?_, ?_, ?_⟩
  · intro pre scores e post hys hnz he
    exact evalLoop_and_fnf he post hys hnz none []
  · intro e post he hexp
    simp [evaluateList, evalLoop, he, hexp]
  · intro e rest s acc q he hexp hscore hq
    simp [evalLoop, he, hexp, hscore, hq]

/-- Witness for C2 amended at single-entry evaluators. -/
theorem C2_amended_file_not_found_witness :
    (evaluateList Conj.and
        [⟨GetterResult.fileNotFound, false, fun _ : Unit => MetricResult.value 0⟩] =
      Except.ok 0) ∧
    (evaluateList Conj.or
        [⟨GetterResult.fileNotFound, false, fun _ : Unit => MetricResult.value 0⟩] =
      Except.error EvalError.nameError) ∧
    (evalLoop Conj.or
        [⟨GetterResult.fileNotFound, false, fun _ : Unit => MetricResult.value 0⟩]
        (some ()) [] =
      evalLoop Conj.or ([] : List (EvalEntry Unit)) (some ()) ([] ++ [(0:ℚ)])) :=
  ⟨C2_amended_file_not_found.1 [] [] _ [] List.Forall₂.nil (by simp) rfl,
   C2_amended_file_not_found.2.1 _ [] rfl rfl,
   C2_amended_file_not_found.2.2 _ [] () [] (0:ℚ) rfl rfl rfl (by simp)⟩

/-- Helper for C3: a successful scan returns the first free port in the
scanned range. -/
lemma scanRem_some_spec (used_ports exclude_ports : Finset ℕ) :
    ∀ (rem port p : ℕ), rem + port = 65535 →
      scanRem used_ports exclude_ports rem port = some p →
      p ∉ used_ports ∧ p ∉ exclude_ports ∧ port ≤ p ∧ p < 65535 ∧
        ∀ q, port ≤ q → q < p → q ∈ used_ports ∨ q ∈ exclude_ports := by
  intro rem
  induction rem with
  | zero => intro port p _ h; simp [scanRem] at h
  | succ n ih =>
    intro port p hsum h
    simp only [scanRem] at h
    by_cases hfree : port ∉ used_ports ∧ port ∉ exclude_ports
    · rw [if_pos hfree] at h
      obtain rfl : port = p := Option.some.inj h
      refine ⟨hfree.1, hfree.2, le_refl _, by omega, ?_⟩
      intro q hq1 hq2
      omega
    · rw [if_neg hfree] at h
      have hmem : port ∈ used_ports ∨ port ∈ exclude_ports := by
        by_cases h1 : port ∈ used_ports
        · exact Or.inl h1
        · by_cases h2 : port ∈ exclude_ports
          · exact Or.inr h2
          · exact absurd ⟨h1, h2⟩ hfree
      obtain ⟨hp1, hp2, hp3, hp4, hp5⟩ := ih (port + 1) p (by omega) h
      refine ⟨hp1, hp2, by omega, hp4, ?_⟩
      intro q hq1 hq2
      rcases Nat.eq_or_lt_of_le hq1 with rfl | hlt
      · exact hmem
      · exact hp5 q (by omega) hq2

/-- Helper for C3: when every port of the scanned range is taken, the
scan exhausts and raises. -/
lemma scanRem_none_spec (used_ports exclude_ports : Finset ℕ) :
    ∀ (rem port : ℕ), rem + port = 65535 →
      (∀ q, port ≤ q → q < 65535 → q ∈ used_ports ∨ q ∈ exclude_ports) →
      scanRem used_ports exclude_ports rem port = none := by
  intro rem
  induction rem with
  | zero => intro port _ _; simp [scanRem]
  | succ n ih =>
    intro port hsum hall
    have hmem : port ∈ used_ports ∨ port ∈ exclude_ports := hall port (le_refl _) (by omega)
    have hfree : ¬(port ∉ used_ports ∧ port ∉ exclude_ports) := by
      rintro ⟨h1, h2⟩
      rcases hmem with h | h
      · exact h1 h
      · exact h2 h
    simp only [scanRem]
    rw [if_neg hfree]
    exact ih (port + 1) (by omega) (fun q hq1 hq2 => hall q (by omega) hq2)

/-- C3: the port allocator returns a port outside both the used set and
the excluded set, and it is the first such port at or above the start
port (every smaller candidate is taken); when every port from the start
up to (but excluding) 65535 is taken, the call raises instead of
returning. -/
theorem C3_get_available_port (used_ports exclude_ports : Finset ℕ) (start_port : ℕ) :
    (∀ p, _get_available_port used_ports exclude_ports start_port = some p →
        p ∉ used_ports ∧ p ∉ exclude_ports ∧ start_port ≤ p ∧ p < 65535 ∧
          ∀ q, start_port ≤ q → q < p → q ∈ used_ports ∨ q ∈ exclude_ports) ∧
    ((∀ q, start_port ≤ q → q < 65535 → q ∈ used_ports ∨ q ∈ exclude_ports) →
      _get_available_port used_ports exclude_ports start_port = none) := by
  by_cases hs : start_port ≤ 65535
  · constructor
    · intro p h
      exact scanRem_some_spec used_ports exclude_ports (65535 - start_port) start_port p
        (by omega) h
    · intro hall
      exact scanRem_none_spec used_ports exclude_ports (65535 - start_port) start_port
        (by omega) hall
  · have h0 : 65535 - start_port = 0 := by omega
    constructor
    · intro p h
      simp only [_get_available_port, h0, scanRem] at h
      exact Option.noConfusion h
    · intro _
      simp only [_get_available_port, h0, scanRem]

/-- Witness for C3 with used ports 5000 and 5001, excluded port 5002,
start 5000: the allocator returns 5003. -/
theorem C3_get_available_port_witness :
    5003 ∉ ({5000, 5001} : Finset ℕ) ∧ 5003 ∉ ({5002} : Finset ℕ) ∧
      5000 ≤ 5003 ∧ 5003 < 65535 ∧
      ∀ q, 5000 ≤ q → q < 5003 → q ∈ ({5000, 5001} : Finset ℕ) ∨ q ∈ ({5002} : Finset ℕ) :=
  (C3_get_available_port {5000, 5001} {5002} 5000).1 5003 (by decide)

/-! ## Step loop lemmas -/

lemma runActions_cons_true {α : Type} {stepDone : α → Bool} {a : α}
    (h : stepDone a = true) (rest : List α) (stepIdx : ℕ) (traj : List (StepRec α))
    (calls : ℕ) :
    runActions stepDone (a :: rest) stepIdx traj calls =
      ⟨traj ++ [⟨stepIdx + 1, a, true⟩], calls + 1, true⟩ := by
  simp [runActions, h]

lemma runActions_cons_false {α : Type} {stepDone : α → Bool} {a : α}
    (h : stepDone a = false) (rest : List α) (stepIdx : ℕ) (traj : List (StepRec α))
    (calls : ℕ) :
    runActions stepDone (a :: rest) stepIdx traj calls =
      runActions stepDone rest stepIdx (traj ++ [⟨stepIdx + 1, a, false⟩]) (calls + 1) := by
  simp [runActions, h]

/-- Helper for C4: each executed action adds one remote call and one
trajectory record; at most the full action list executes. -/
lemma runActions_spec {α : Type} (stepDone : α → Bool) :
    ∀ (acts : List α) (stepIdx : ℕ) (traj : List (StepRec α)) (calls : ℕ),
      ∃ k, k ≤ acts.length ∧
        (runActions stepDone acts stepIdx traj calls).calls = calls + k ∧
        (runActions stepDone acts stepIdx traj calls).traj.length = traj.length + k := by
  intro acts
  induction acts with
  | nil =>
    intro stepIdx traj calls
    exact ⟨0, by simp, by simp [runActions], by simp [runActions]⟩
  | cons a rest ih =>
    intro stepIdx traj calls
    cases hd : stepDone a
    · obtain ⟨k, hk, hc, ht⟩ := ih stepIdx (traj ++ [⟨stepIdx + 1, a, false⟩]) (calls + 1)
      refine ⟨k + 1, by simp; omega, ?_, ?_⟩
      · rw [runActions_cons_false hd, hc]
        omega
      · rw [runActions_cons_false hd, ht]
        simp
        omega
    · refine ⟨1, by simp, ?_, ?_⟩
      · rw [runActions_cons_true hd]
      · rw [runActions_cons_true hd]
        simp

/-- Helper for C4: when done never fires, a replicated non-terminal
action list contributes exactly its length in remote calls. -/
lemma runActions_replicate_false {α : Type} (stepDone : α → Bool) (a : α)
    (hd : stepDone a = false) :
    ∀ (n stepIdx : ℕ) (traj : List (StepRec α)) (calls : ℕ),
      (runActions stepDone (List.replicate n a) stepIdx traj calls).calls = calls + n ∧
      (runActions stepDone (List.replicate n a) stepIdx traj calls).doneFlag = false := by
  intro n
  induction n with
  | zero => intro stepIdx traj calls; simp [runActions]
  | succ m ih =>
    intro stepIdx traj calls
    rw [List.replicate_succ, runActions_cons_false hd]
    obtain ⟨hc, hdone⟩ := ih stepIdx (traj ++ [⟨stepIdx + 1, a, false⟩]) (calls + 1)
    refine ⟨?_, hdone⟩
    rw [hc]
    omega

lemma runOuter_succ_false {α : Type} (agent : ℕ → List α) (stepDone : α → Bool)
    (fuel stepIdx : ℕ) (traj : List (StepRec α)) (calls : ℕ) :
    runOuter agent stepDone (fuel + 1) stepIdx false traj calls =
      runOuter agent stepDone fuel (stepIdx + 1)
        (runActions stepDone (agent stepIdx) stepIdx traj calls).doneFlag
        (runActions stepDone (agent stepIdx) stepIdx traj calls).traj
        (runActions stepDone (agent stepIdx) stepIdx traj calls).calls := by
  simp [runOuter]

/-- Helper for C4: invariants of the outer loop, with `fuel` encoding
the remaining step budget. -/
lemma runOuter_spec {α : Type} (agent : ℕ → List α) (stepDone : α → Bool) (A : ℕ)
    (hA : ∀ i, (agent i).length ≤ A) :
    ∀ (fuel stepIdx : ℕ) (d : Bool) (traj : List (StepRec α)) (calls : ℕ),
      (runOuter agent stepDone fuel stepIdx d traj calls).envStepCalls + traj.length =
        (runOuter agent stepDone fuel stepIdx d traj calls).trajectory.length + calls ∧
      (runOuter agent stepDone fuel stepIdx d traj calls).envStepCalls ≤ calls + fuel * A ∧
      (runOuter agent stepDone fuel stepIdx d traj calls).stepIdx ≤ stepIdx + fuel ∧
      ((runOuter agent stepDone fuel stepIdx d traj calls).doneFlag = false →
        (runOuter agent stepDone fuel stepIdx d traj calls).stepIdx = stepIdx + fuel) := by
  intro fuel
  induction fuel with
  | zero =>
    intro stepIdx d traj calls
    simp [runOuter]
    omega
  | succ m ih =>
    intro stepIdx d traj calls
    cases d
    · rw [runOuter_succ_false]
      obtain ⟨k, hk, hc, ht⟩ := runActions_spec stepDone (agent stepIdx) stepIdx traj calls
      have hkA : k ≤ A := le_trans hk (hA stepIdx)
      set r := runActions stepDone (agent stepIdx) stepIdx traj calls with hr
      obtain ⟨ih1, ih2, ih3, ih4⟩ := ih (stepIdx + 1) r.doneFlag r.traj r.calls
      set R := runOuter agent stepDone m (stepIdx + 1) r.doneFlag r.traj r.calls with hR
      have hmul : m * A + A = (m + 1) * A := by ring
      refine ⟨by omega, by omega, by omega, ?_⟩
      intro hdone
      have := ih4 hdone
      omega
    · simp [runOuter]
      omega

/-- C4 counterexample: the number of remote execution calls is not
bounded by `max_steps` plus any constant, because the inner `for action
in actions` loop performs one `worker_env.step` call per emitted action:
an agent emitting `c + 2` non-terminal actions in a single prediction
already forces `c + 2` calls with a budget of one step. -/
theorem C4_counterexample_calls_not_plus_constant :
    ¬ ∃ c : ℕ, ∀ (agent : ℕ → List ℕ) (maxSteps : ℕ),
        (runTaskLoop agent (fun _ => false) maxSteps).envStepCalls ≤ maxSteps + c := by
  rintro ⟨c, h⟩
  have hr := h (fun _ => List.replicate (c + 2) 0) 1
  have hstep : runTaskLoop (fun _ => List.replicate (c + 2) (0:ℕ)) (fun _ => false) 1 =
      ⟨(runActions (fun _ => false) (List.replicate (c + 2) (0:ℕ)) 0 [] 0).traj,
       (runActions (fun _ => false) (List.replicate (c + 2) (0:ℕ)) 0 [] 0).calls,
       (runActions (fun _ => false) (List.replicate (c + 2) (0:ℕ)) 0 [] 0).doneFlag, 1⟩ := by
    rw [runTaskLoop, runOuter_succ_false]
    rfl
  rw [hstep] at hr
  have ha := runActions_replicate_false (fun _ => false) (0:ℕ) rfl (c + 2) 0 [] 0
  have hr2 : (runActions (fun _ => false) (List.replicate (c + 2) (0:ℕ)) 0 [] 0).calls ≤
      1 + c := hr
  rw [ha.1] at hr2
  omega

/-- C4 amended: for every agent behavior the step loop terminates; it
stops once done is set or the step index reaches `max_steps`; the
trajectory is finite with exactly one record per remote execution call;
and the number of remote execution calls is at most `max_steps * A`,
where `A` bounds the number of actions the agent emits per prediction
(the spec bound `max_steps + O(1)` corresponds to `A = 1`). -/
theorem C4_amended_loop_bounds {α : Type} (agent : ℕ → List α) (stepDone : α → Bool)
    (maxSteps A : ℕ) (hA : ∀ i, (agent i).length ≤ A) :
    (runTaskLoop agent stepDone maxSteps).trajectory.length =
        (runTaskLoop agent stepDone maxSteps).envStepCalls ∧
      (runTaskLoop agent stepDone maxSteps).envStepCalls ≤ maxSteps * A ∧
      (runTaskLoop agent stepDone maxSteps).stepIdx ≤ maxSteps ∧
      ((runTaskLoop agent stepDone maxSteps).doneFlag = false →
        (runTaskLoop agent stepDone maxSteps).stepIdx = maxSteps) := by
  obtain ⟨h1, h2, h3, h4⟩ := runOuter_spec agent stepDone A hA maxSteps 0 false [] 0
  rw [runTaskLoop]
  refine ⟨by simpa using h1.symm, by simpa using h2, by simpa using h3, ?_⟩
  intro hdone
  simpa using h4 hdone

/-- Witness for C4 amended: a single-action agent with a budget of two
steps. -/
theorem C4_amended_loop_bounds_witness :
    (runTaskLoop (fun _ => [(0:ℕ)]) (fun _ => false) 2).trajectory.length =
        (runTaskLoop (fun _ => [(0:ℕ)]) (fun _ => false) 2).envStepCalls ∧
      (runTaskLoop (fun _ => [(0:ℕ)]) (fun _ => false) 2).envStepCalls ≤ 2 * 1 ∧
      (runTaskLoop (fun _ => [(0:ℕ)]) (fun _ => false) 2).stepIdx ≤ 2 ∧
      ((runTaskLoop (fun _ => [(0:ℕ)]) (fun _ => false) 2).doneFlag = false →
        (runTaskLoop (fun _ => [(0:ℕ)]) (fun _ => false) 2).stepIdx = 2) :=
  C4_amended_loop_bounds (fun _ => [(0:ℕ)]) (fun _ => false) 2 1 (fun _ => by simp)

/-- C5: when the backup path exists, reverting twice in a row from the
same backup yields the identical working-path content both times. -/
theorem C5_revert_idempotent (backup : Option FSNode) (working : Option FSNode)
    (hb : backup.isSome = true) :
    ∃ w1, revert_to_snapshot true backup working = Except.ok w1 ∧
      revert_to_snapshot true backup w1 = Except.ok w1 := by
  cases backup with
  | none => simp at hb
  | some b =>
    cases hbd : b.isDir
    · exact ⟨none, by simp [revert_to_snapshot, hbd], by simp [revert_to_snapshot, hbd]⟩
    · exact ⟨some b, by simp [revert_to_snapshot, hbd], by simp [revert_to_snapshot, hbd]⟩

/-- Witness for C5 at an existing directory backup. -/
theorem C5_revert_idempotent_witness :
    ∃ w1, revert_to_snapshot true (some (FSNode.dir [])) none = Except.ok w1 ∧
      revert_to_snapshot true (some (FSNode.dir [])) w1 = Except.ok w1 :=
  C5_revert_idempotent (some (FSNode.dir [])) none rfl

/-- C6 counterexample: with a missing backup path, revert does not fail
at all: it returns successfully with a freshly created empty working
directory, so no BackupMissing error is raised. -/
theorem C6_counterexample_no_backup_missing_error :
    revert_to_snapshot true none none = Except.ok (some (FSNode.dir [])) ∧
      ∀ e : RevertError, revert_to_snapshot true none none ≠ Except.error e := by
  refine ⟨rfl, ?_⟩
  intro e h
  exact Except.noConfusion h

/-- C6 amended: when the backup path does not exist, revert itself (not
the caller) falls back to creating an empty working directory and
continues without raising. -/
theorem C6_amended_missing_backup_initializes_empty (copyOk : Bool)
    (working : Option FSNode) :
    revert_to_snapshot copyOk none working = Except.ok (some (FSNode.dir [])) := rfl

/-- C7 counterexample: stopping a running provider leaves the browser
port field (`brower_port`) set: the finally block clears only the
container handle and the server, RDP and chromium ports. -/
theorem C7_counterexample_browser_port_kept :
    (stop_emulator true ⟨true, some 5000, some 3389, some 9222, some 5910⟩).brower_port =
        some 5910 ∧ (some 5910 ≠ (none : Option ℕ)) := by
  refine ⟨rfl, ?_⟩
  intro h
  exact Option.noConfusion h

/-- C7 amended: stop never raises (its outcome does not depend on
whether the container stop or remove operations raise); when a container
handle is present it clears the handle and the server, RDP and chromium
port fields but leaves `brower_port` untouched; when no handle is
present it leaves the whole state unchanged (ports included). -/
theorem C7_amended_stop_clears_all_but_browser (stopRaises : Bool) (s : ProviderState) :
    stop_emulator stopRaises s = stop_emulator true s ∧
    (s.container = true →
      stop_emulator stopRaises s =
        { s with container := false, server_port := none, rdp_port := none,
                 chromium_port := none }) ∧
    (s.container = false → stop_emulator stopRaises s = s) := by
  refine ⟨?_, ?_, ?_⟩
  · cases hc : s.container <;> cases stopRaises <;>
      simp [stop_emulator, stopRemoveOps, hc]
  · intro hc
    cases stopRaises <;> simp [stop_emulator, stopRemoveOps, hc]
  · intro hc
    simp [stop_emulator, hc]

/-- Witness for C7 amended at a fully allocated provider state. -/
theorem C7_amended_stop_clears_all_but_browser_witness :
    stop_emulator false (⟨true, some 1, some 2, some 3, some 4⟩ : ProviderState) =
        stop_emulator true ⟨true, some 1, some 2, some 3, some 4⟩ ∧
      stop_emulator false (⟨true, some 1, some 2, some 3, some 4⟩ : ProviderState) =
        ⟨false, none, none, none, some 4⟩ ∧
      stop_emulator false (⟨false, some 1, some 2, some 3, some 4⟩ : ProviderState) =
        ⟨false, some 1, some 2, some 3, some 4⟩ :=
  ⟨(C7_amended_stop_clears_all_but_browser false _).1,
   (C7_amended_stop_clears_all_but_browser false _).2.1 rfl,
   (C7_amended_stop_clears_all_but_browser false _).2.2 rfl⟩

/-- C8 counterexample: a metric that raises under a scalar evaluator
makes evaluate propagate the exception to its caller (the metric call
sits outside the try block), so evaluation errors are not always
converted to score 0. -/
theorem C8_counterexample_metric_raise_propagates :
    evaluateScalar
        (⟨GetterResult.ok (), false, GetterResult.ok (),
          fun (_ : Unit) (_ : Option Unit) => ScalarMetricResult.raises⟩ :
            ScalarEvalCfg Unit Unit) =
      Except.error EvalError.uncaught := rfl

/-- C8 amended: under a scalar evaluator, errors raised by the result
getter never propagate: both a file-not-found and any other exception
from the result getter make evaluate return score 0 (in particular the
spec scenario of a file-not-found result getter).  However the other
evaluation errors do propagate to the caller: an exception (including
file-not-found) raised by the expected getter, an exception raised by
the metric call itself (with or without an expected state), and, in the
list branch, any result-getter exception other than FileNotFoundError
under either conjunction. -/
theorem C8_amended_evaluation_error_paths (σ τ : Type) :
    (∀ cfg : ScalarEvalCfg σ τ, cfg.result_getter = GetterResult.fileNotFound →
        evaluateScalar cfg = Except.ok 0) ∧
    (∀ cfg : ScalarEvalCfg σ τ, cfg.result_getter = GetterResult.raises →
        evaluateScalar cfg = Except.ok 0) ∧
    (∀ (cfg : ScalarEvalCfg σ τ) (s : σ), cfg.result_getter = GetterResult.ok s →
        cfg.expected_present = true →
        (cfg.expected_getter = GetterResult.fileNotFound ∨
          cfg.expected_getter = GetterResult.raises) →
        evaluateScalar cfg = Except.error EvalError.uncaught) ∧
    (∀ (cfg : ScalarEvalCfg σ τ) (s : σ), cfg.result_getter = GetterResult.ok s →
        cfg.expected_present = false → cfg.metricFn s none = ScalarMetricResult.raises →
        evaluateScalar cfg = Except.error EvalError.uncaught) ∧
    (∀ (cfg : ScalarEvalCfg σ τ) (s : σ) (t : τ), cfg.result_getter = GetterResult.ok s →
        cfg.expected_present = true → cfg.expected_getter = GetterResult.ok t →
        cfg.metricFn s (some t) = ScalarMetricResult.raises →
        evaluateScalar cfg = Except.error EvalError.uncaught) ∧
    (∀ (conj : Conj) (e : EvalEntry σ) (rest : List (EvalEntry σ)),
        e.getter = GetterResult.raises →
        evaluateList conj (e :: rest) = Except.error EvalError.uncaught) := by
  refine ⟨?_, ?_, ?_, ?_, ?_, ?_⟩
  · intro cfg h
    simp [evaluateScalar, h]
  · intro cfg h
    simp [evaluateScalar, h]
  · intro cfg s hres hexp hraise
    rcases hraise with h | h <;> simp [evaluateScalar, hres, hexp, h]
  · intro cfg s hres hexp hmet
    simp [evaluateScalar, hres, hexp, hmet]
  · intro cfg s t hres hexp hget hmet
    simp [evaluateScalar, hres, hexp, hget, hmet]
  · intro conj e rest h
    simp [evaluateList, evalLoop, h]

/-- Witness for C8 amended: a file-not-found scalar result getter yields
0, a raising expected getter propagates, and a raising result getter
under a list evaluator propagates. -/
theorem C8_amended_evaluation_error_paths_witness :
    (evaluateScalar
        (⟨GetterResult.fileNotFound, false, GetterResult.ok (),
          fun (_ : Unit) (_ : Option Unit) => ScalarMetricResult.num 1⟩ :
            ScalarEvalCfg Unit Unit) =
      Except.ok 0) ∧
    (evaluateScalar
        (⟨GetterResult.ok (), true, GetterResult.raises,
          fun (_ : Unit) (_ : Option Unit) => ScalarMetricResult.num 1⟩ :
            ScalarEvalCfg Unit Unit) =
      Except.error EvalError.uncaught) ∧
    (evaluateList Conj.or
        [⟨GetterResult.raises, false, fun _ : Unit => MetricResult.value 1⟩] =
      Except.error EvalError.uncaught) :=
  ⟨(C8_amended_evaluation_error_paths Unit Unit).1 _ rfl,
   (C8_amended_evaluation_error_paths Unit Unit).2.2.1 _ () rfl rfl (Or.inr rfl),
   (C8_amended_evaluation_error_paths Unit Unit).2.2.2.2.2 Conj.or _ [] rfl⟩

/-- C9 counterexample: an exception raised while executing the uploaded
script (after a successful upload) skips the `rm -f` cleanup, leaving
the temporary script file on the remote host on that failure path. -/
theorem C9_counterexample_temp_left_on_failure :
    execute_python_command ⟨RemoteOp.ok, RemoteOp.raises, RemoteOp.ok⟩ =
      ⟨ExecStatus.error, true⟩ := rfl

/-- C9 amended: the temporary script is removed on the straight-line
path (upload, execution and removal all complete, which includes a
script that merely exits nonzero); but when an exception occurs after
the upload, during execution or during removal, the temporary file is
left on the remote host. -/
theorem C9_amended_cleanup (env : ExecScriptEnv) :
    (env.upload = RemoteOp.ok → env.runScript = RemoteOp.ok → env.removeCmd = RemoteOp.ok →
      execute_python_command env = ⟨ExecStatus.success, false⟩) ∧
    (env.upload = RemoteOp.ok → env.runScript = RemoteOp.raises →
      execute_python_command env = ⟨ExecStatus.error, true⟩) ∧
    (env.upload = RemoteOp.ok → env.runScript = RemoteOp.ok → env.removeCmd = RemoteOp.raises →
      execute_python_command env = ⟨ExecStatus.error, true⟩) := by
  obtain ⟨u, r, d⟩ := env
  refine ⟨?_, ?_, ?_⟩
  · intro h1 h2 h3
    subst h1; subst h2; subst h3
    rfl
  · intro h1 h2
    subst h1; subst h2
    rfl
  · intro h1 h2 h3
    subst h1; subst h2; subst h3
    rfl

/-- Witness for C9 amended on the all-success path. -/
theorem C9_amended_cleanup_witness :
    execute_python_command ⟨RemoteOp.ok, RemoteOp.ok, RemoteOp.ok⟩ =
      ⟨ExecStatus.success, false⟩ :=
  (C9_amended_cleanup _).1 rfl rfl rfl

/-- C10: stepping the macOS environment with no loaded task returns the
all-None four-tuple, leaves the state unchanged (no step counter exists
to increment), and performs no remote-channel call. -/
theorem C10_step_without_task (st : MacEnvState) (a : MacAction) (h : st.task = none) :
    macStep st a = (⟨none, none, none, none⟩, st, 0) := by
  cases st with
  | mk t =>
    cases t with
    | none => rfl
    | some u => simp at h

/-- Witness for C10 at the fresh environment state. -/
theorem C10_step_without_task_witness :
    macStep ⟨none⟩ MacAction.wait = (⟨none, none, none, none⟩, ⟨none⟩, 0) :=
  C10_step_without_task ⟨none⟩ MacAction.wait rfl

end OSSymphony
